import Mathlib

/-!
Verification development for the WeatherStation dashboard (src/main.py).

The embedding models the statistics / rolling-average pipeline of the `index`
route, the y-axis range computation, the timezone conversion helper
`convert_to_nyc_time`, the hours-window selection, and the `delete_old_data`
route.  Conventions:

* instants in time are modelled as integers (seconds since an epoch);
* temperatures and other float quantities are modelled as rationals;
* a pandas NaN / NaT produced by a coercion failure is modelled with `Option`;
* `5min` (the rolling window) is 300 seconds, `timedelta(hours=h)` is
  `h * 3600` seconds, `timedelta(days=d)` is `d * 86400` seconds.
-/

namespace WeatherStation

/-- main.py line 38: `DEFAULT_HOURS = 24`. -/
def DEFAULT_HOURS : Int := 24

/-- main.py line 39: `ALLOWED_HOURS = [1, 3, 6, 12, 24, 48, 72]`. -/
def ALLOWED_HOURS : List Int := [1, 3, 6, 12, 24, 48, 72]

/-- main.py line 40: `Y_AXIS_PADDING = 2`. -/
def Y_AXIS_PADDING : ℚ := 2

/-- main.py line 41: ROLLING_AVG_WINDOW, the 5-minute pandas offset, i.e. 300 seconds. -/
def ROLLING_AVG_WINDOW_SECONDS : Int := 300

/-! ### Timezone model (main.py lines 80-87)

A Python `datetime` is modelled by the instant it denotes (epoch seconds)
together with its `tzinfo`.  For a naive datetime (`tzinfo = none`) the
`instant` field records its wall-clock reading interpreted as UTC, which is
exactly how `pytz.utc.localize` treats it.  Timezone tags other than UTC and
America/New_York are not needed by the program, but an arbitrary-offset tag is
kept so that aware inputs in any timezone are representable;
`astimezone` never changes the instant, only the tag. -/

inductive Tzone where
  | utc : Tzone
  | nyc : Tzone
  | fixedOffset (minutes : Int) : Tzone
deriving DecidableEq, Repr

/-- A Python `datetime` value: the instant it denotes plus its tzinfo tag. -/
structure PyDatetime where
  instant : Int
  tzinfo : Option Tzone
deriving DecidableEq, Repr

/-- An arbitrary Python value passed to `convert_to_nyc_time`: either a
`datetime` or anything else (the `isinstance` check only distinguishes
these two cases). -/
inductive PyValue where
  | dt (d : PyDatetime) : PyValue
  | nonDatetime : PyValue
deriving DecidableEq, Repr

/-- `pytz.utc.localize`: attach UTC to a naive datetime, reading its
wall-clock value as UTC (so the denoted instant is the recorded field). -/
def pytzUtcLocalize (d : PyDatetime) : PyDatetime :=
  { d with tzinfo := some Tzone.utc }

/-- `dt.astimezone(tz)`: same instant, re-expressed in timezone `tz`. -/
def astimezone (d : PyDatetime) (tz : Tzone) : PyDatetime :=
  { instant := d.instant, tzinfo := some tz }

/-- main.py lines 80-87: `convert_to_nyc_time(utc_dt)`. -/
def convert_to_nyc_time : PyValue → Option PyDatetime
  | PyValue.nonDatetime => none
  | PyValue.dt d =>
      let u := match d.tzinfo with
        | none => pytzUtcLocalize d
        | some _ => astimezone d Tzone.utc
      some (astimezone u Tzone.nyc)

/-! ### Rows and the cleaning pipeline (main.py lines 408-424)

A fetched document is a `RawRow`: its timestamp after the coercing
`pd.to_datetime` (`none` models `NaT`) and its temperature after the
coercing `pd.to_numeric` (`none` models `NaN`).  A fully valid row is
a `Row`. -/

structure RawRow where
  tsRaw : Option Int
  tempRaw : Option ℚ
deriving DecidableEq, Repr

structure Row where
  ts : Int
  temp : ℚ
deriving DecidableEq, Repr

instance : Inhabited Row := ⟨⟨0, 0⟩⟩

/-- The NYC-converted time of the (naive UTC) timestamp of a row, as
produced by applying `convert_to_nyc_time` to the timestamp column. -/
def nycOf (t : Int) : Option PyDatetime :=
  convert_to_nyc_time (PyValue.dt ⟨t, none⟩)

/-- The sorting / rolling-window key taken from the `time_nyc` column:
tz-aware timestamps compare by the instant they denote. -/
def nycKey (r : Row) : Int :=
  match nycOf r.ts with
  | some d => d.instant
  | none => r.ts

/-- Timestamp of a fetched document, defaulting (never used on fetched data,
where the timestamp is present) to 0. -/
def tsRawD (d : RawRow) : Int := d.tsRaw.getD 0

/-! ### A stable key-based sort

`sort_values` / `sort_index` / the Mongo ascending sort are modelled by a
structurally recursive insertion sort on an integer key, so that concrete
instances evaluate by `decide`. -/

def orderedInsertKey {α : Type} (key : α → Int) (a : α) : List α → List α
  | [] => [a]
  | b :: l => if key a ≤ key b then a :: b :: l else b :: orderedInsertKey key a l

def sortByKey {α : Type} (key : α → Int) : List α → List α
  | [] => []
  | a :: l => orderedInsertKey key a (sortByKey key l)

/-- main.py lines 408-412: the window query, a find on timestamp at least
`start_time_utc` sorted ascending by timestamp.  The Mongo comparison
against a date matches only documents whose timestamp is a date
(type bracketing), hence the `none` case fails. -/
def fetchWindow (docs : List RawRow) (startTime : Int) : List RawRow :=
  sortByKey tsRawD
    (docs.filter fun d =>
      match d.tsRaw with
      | some t => decide (startTime ≤ t)
      | none => false)

/-- main.py line 417: dropna on the timestamp column. -/
def dropNaTimestamp (l : List RawRow) : List RawRow :=
  l.filter fun r => r.tsRaw.isSome

/-- main.py line 419: dropna on the temperature column. -/
def dropNaTemp (l : List RawRow) : List RawRow :=
  l.filter fun r => r.tempRaw.isSome

/-- Totalize rows whose two fields survived the dropna steps. -/
def toRows (l : List RawRow) : List Row :=
  l.filterMap fun r =>
    match r.tsRaw, r.tempRaw with
    | some t, some v => some ⟨t, v⟩
    | _, _ => none

/-- main.py lines 415-423: the cleaning pipeline.  The `time_nyc` dropna at
line 423 never removes anything because `convert_to_nyc_time` returns a value
on every datetime, so it is not a separate step here. -/
def cleanRows (l : List RawRow) : List Row :=
  toRows (dropNaTemp (dropNaTimestamp l))

/-- main.py line 424: sort_values on the time_nyc column. -/
def sortNyc (l : List Row) : List Row :=
  sortByKey nycKey l

/-- Sorting by the original UTC timestamp, for comparison. -/
def sortTs (l : List Row) : List Row :=
  sortByKey (fun r => r.ts) l

/-- The cleaned, NYC-sorted series used for stats, chart and rolling average. -/
def chartRows (l : List RawRow) : List Row :=
  sortNyc (cleanRows l)

/-- The boolean monotonicity check `df_for_rolling.index.is_monotonic_increasing`
(main.py line 438) on the `time_nyc` index. -/
def isMonotonicKey {α : Type} (key : α → Int) : List α → Bool
  | [] => true
  | [_] => true
  | a :: b :: rest => decide (key a ≤ key b) && isMonotonicKey key (b :: rest)

/-- main.py lines 437-439: set the `time_nyc` index and re-sort it when it is
not monotonic. -/
def dfForRolling (l : List Row) : List Row :=
  if isMonotonicKey nycKey l then l else sortByKey nycKey l

/-! ### Rolling average (main.py line 441)

The rolling mean with a 5-minute offset window and min_periods 1 over a
monotonic time index:
at position `i` the window holds the rows at positions `j ≤ i` whose index
value exceeds `index[i] - 300` seconds (pandas offset windows are left-open,
right-closed, and the window never extends past the current position). -/

def mean (xs : List ℚ) : ℚ := xs.sum / xs.length

/-- The `time_nyc` index value at position `i`. -/
def keyAt (l : List Row) (i : Nat) : Int := nycKey (l.getD i default)

/-- The rows inside the rolling window at position `i`. -/
def rollWindow (l : List Row) (i : Nat) : List Row :=
  (l.take (i + 1)).filter fun r =>
    decide (keyAt l i - ROLLING_AVG_WINDOW_SECONDS < nycKey r)

/-- The rolling-average value at position `i`. -/
def rollAt (l : List Row) (i : Nat) : ℚ :=
  mean ((rollWindow l i).map Row.temp)

/-- The whole rolling series, indexed by the `time_nyc` instants. -/
def rollingSeries (l : List Row) : List (Int × ℚ) :=
  (List.range l.length).map fun i => (keyAt l i, rollAt l i)

/-- Fold computing `.max()` together with `.idxmax()` (the index of the first
occurrence of the maximum): the accumulator `(value, index)` is replaced only
on a strictly larger value. -/
def maxWithIdx : List (Int × ℚ) → ℚ × Int → ℚ × Int
  | [], acc => acc
  | (t, v) :: rest, acc =>
      maxWithIdx rest (if acc.1 < v then (v, t) else acc)

/-- main.py lines 458-463: the peak of the rolling series with its timestamp
(`non_na_rolling_series.max()` and `.idxmax()`); `none` when the series is
empty.  With `min_periods=1` over valid rows the series has no NaN, so the
`dropna` at line 443 removes nothing. -/
def highestRolling (l : List Row) : Option (ℚ × Int) :=
  match rollingSeries l with
  | [] => none
  | (t, v) :: rest => some (maxWithIdx rest (v, t))

/-! ### The spec-side rolling window, for the refinement claim C1

Written from the words of the specification: the mean of all temperature values
whose timestamps lie within the 5-minute window ending at reading `i`. -/

def specWindow (l : List Row) (i : Nat) : List Row :=
  l.filter fun r =>
    decide (keyAt l i - ROLLING_AVG_WINDOW_SECONDS < nycKey r) &&
      decide (nycKey r ≤ keyAt l i)

def specWindowMean (l : List Row) (i : Nat) : ℚ :=
  mean ((specWindow l i).map Row.temp)

/-! ### Statistics (main.py lines 427-434) -/

def listMin : List ℚ → Option ℚ
  | [] => none
  | x :: xs =>
      some (match listMin xs with
        | none => x
        | some m => min x m)

def listMax : List ℚ → Option ℚ
  | [] => none
  | x :: xs =>
      some (match listMax xs with
        | none => x
        | some m => max x m)

/-- The two-decimal fixed-point formatting applied before display, modelled
as exact rounding of the rational to hundredths. -/
def fmt2 (x : ℚ) : ℚ := (round (100 * x) : ℚ) / 100

structure StatsData where
  min_f : ℚ
  avg_f : ℚ
  max_f : ℚ
deriving DecidableEq, Repr

/-- main.py lines 427-434: min/mean/max of `average_temp_f`, each formatted to
two decimals; produced only when the cleaned frame is non-empty. -/
def statsOf (l : List Row) : Option StatsData :=
  match listMin (l.map Row.temp), listMax (l.map Row.temp) with
  | some mn, some mx =>
      some ⟨fmt2 mn, fmt2 (mean (l.map Row.temp)), fmt2 mx⟩
  | _, _ => none

/-- The spec-side valid temperatures of a fetched dataset: the values of the
rows having both a parseable timestamp and a numeric temperature. -/
def validTemps (l : List RawRow) : List ℚ :=
  (l.filter fun r => r.tsRaw.isSome && r.tempRaw.isSome).filterMap fun r =>
    r.tempRaw

/-! ### Y-axis range (main.py lines 466-475) -/

/-- main.py lines 467-471: padding, with the degenerate `min == max` branch
(`max(Y_AXIS_PADDING, 1)` guarantees at least one unit of padding). -/
def yPadded (minT maxT : ℚ) : Int × Int :=
  let y0 : Int × Int := (⌊minT - Y_AXIS_PADDING⌋, ⌈maxT + Y_AXIS_PADDING⌉)
  if minT = maxT then
    (⌊minT - max Y_AXIS_PADDING 1⌋, ⌈maxT + max Y_AXIS_PADDING 1⌉)
  else y0

/-- main.py lines 472-474: the final clamp rewriting the bounds when
`y_min_calc >= y_max_calc`.  `math.floor` and `math.ceil` on the integer
arguments are identities. -/
def yClamp (p : Int × Int) : Int × Int :=
  if p.1 ≥ p.2 then
    let ymin : Int := if p.2 > 0 then p.2 - 1 else -1
    let ymax : Int := if ymin < 100 then ymin + 1 else ymin + 1
    (ymin, ymax)
  else p

/-- main.py lines 466-475: the y-axis range of the chart, y_min_calc to y_max_calc. -/
def yAxisRange (minT maxT : ℚ) : Int × Int :=
  yClamp (yPadded minT maxT)

/-! ### Hours-window selection (main.py lines 370-382) -/

/-- A character of Python whitespace, for the stripping done by `int(str)`. -/
def isPySpace (c : Char) : Bool :=
  c = ' ' || c = '\t' || c = '\n' || c = '\r'

def stripEnds (cs : List Char) : List Char :=
  ((cs.dropWhile isPySpace).reverse.dropWhile isPySpace).reverse

def digitsVal : List Char → Nat → Option Nat
  | [], acc => some acc
  | c :: cs, acc =>
      if c.isDigit then digitsVal cs (10 * acc + (c.toNat - 48)) else none

def digitsCore : List Char → Option Nat
  | [] => none
  | c :: cs => digitsVal (c :: cs) 0

/-- The Python int constructor on a decimal string: optional surrounding whitespace,
an optional sign, then at least one digit; `none` models `ValueError`.
(Underscore digit grouping is not modelled.) -/
def pyInt (s : String) : Option Int :=
  match stripEnds s.toList with
  | '+' :: rest => (digitsCore rest).map fun n => (n : Int)
  | '-' :: rest => (digitsCore rest).map fun n => -(n : Int)
  | cs => (digitsCore cs).map fun n => (n : Int)

/-- main.py lines 370-377: parse the hours query parameter (defaulted to
DEFAULT_HOURS) and fall back to the default (flashing a warning, the
`Bool` component) when
the value is not an allowed hour count or not an integer.  An absent
parameter yields `int(DEFAULT_HOURS) = 24`, which is allowed. -/
def selectHours (param : Option String) : Int × Bool :=
  match param with
  | none =>
      if DEFAULT_HOURS ∈ ALLOWED_HOURS then (DEFAULT_HOURS, false)
      else (DEFAULT_HOURS, true)
  | some s =>
      match pyInt s with
      | none => (DEFAULT_HOURS, true)
      | some n => if n ∈ ALLOWED_HOURS then (n, false) else (DEFAULT_HOURS, true)

/-- main.py line 382: `start_time_utc = now_utc - timedelta(hours=hours_to_show)`. -/
def startTimeUtc (now : Int) (hours : Int) : Int := now - hours * 3600

/-! ### The delete route (main.py lines 532-588) -/

/-- A stored document, for the delete route: its timestamp and its payload. -/
structure Doc where
  ts : Int
  temp : ℚ
deriving DecidableEq, Repr

/-- The flash message categories used by the routes. -/
inductive FlashCat where
  | danger : FlashCat
  | warning : FlashCat
  | success : FlashCat
deriving DecidableEq, Repr

/-- The flash messages `delete_old_data` can emit. -/
inductive Flash where
  | passwordConfigError : Flash
  | invalidPassword : Flash
  | daysNotProvided : Flash
  | invalidDays : Flash
  | negativeDays : Flash
  | deletedAll (n : Nat) : Flash
  | deletedOld (n : Nat) (days : Int) : Flash
deriving DecidableEq, Repr

def flashCat : Flash → FlashCat
  | Flash.passwordConfigError => FlashCat.danger
  | Flash.invalidPassword => FlashCat.danger
  | Flash.daysNotProvided => FlashCat.danger
  | Flash.invalidDays => FlashCat.danger
  | Flash.negativeDays => FlashCat.warning
  | Flash.deletedAll _ => FlashCat.success
  | Flash.deletedOld _ _ => FlashCat.success

/-- The outcome of `delete_old_data`: the collection left behind, the flash
message, and the fact that the route ends in a redirect to the dashboard. -/
structure DeleteOutcome where
  coll : List Doc
  flash : Flash
  redirected : Bool
deriving DecidableEq, Repr

/-- `hmac.compare_digest` on the UTF-8 encodings: functionally, byte equality. -/
def compareDigest (a b : String) : Bool := a == b

/-- main.py line 576: `cutoff_date_utc = now - timedelta(days=days_old)`. -/
def cutoffDate (now : Int) (daysOld : Int) : Int := now - daysOld * 86400

/-- main.py lines 543-588: the body of `delete_old_data` after a successful
database connection.  `password` and `daysOld` are the posted form fields
(`none` when absent); `storedPw` is `CLEAR_DATA_PASSWORD`.  The first guard
mirrors `if not submitted_password or not stored_password` (Python falsiness
of `None` and of the empty string). -/
def delete_old_data (storedPw : String) (now : Int) (password : Option String)
    (daysOld : Option String) (coll : List Doc) : DeleteOutcome :=
  match password with
  | none => ⟨coll, Flash.passwordConfigError, true⟩
  | some pw =>
      if pw = "" ∨ storedPw = "" then ⟨coll, Flash.passwordConfigError, true⟩
      else if ¬ compareDigest pw storedPw then ⟨coll, Flash.invalidPassword, true⟩
      else
        match daysOld with
        | none => ⟨coll, Flash.daysNotProvided, true⟩
        | some ds =>
            match pyInt ds with
            | none => ⟨coll, Flash.invalidDays, true⟩
            | some d =>
                if d < 0 then ⟨coll, Flash.negativeDays, true⟩
                else if d = 0 then ⟨[], Flash.deletedAll coll.length, true⟩
                else
                  let remaining :=
                    coll.filter fun x => !decide (x.ts < cutoffDate now d)
                  ⟨remaining, Flash.deletedOld (coll.length - remaining.length) d, true⟩

/-- The password gate of the delete route, as a proposition: the submitted
password is present, non-empty, the stored password is non-empty, and the
digest comparison succeeds. -/
def passwordAccepted (storedPw : String) (password : Option String) : Prop :=
  ∃ pw, password = some pw ∧ pw ≠ "" ∧ storedPw ≠ "" ∧ compareDigest pw storedPw = true

instance (storedPw : String) (password : Option String) :
    Decidable (passwordAccepted storedPw password) := by
  unfold passwordAccepted
  cases password with
  | none => exact isFalse (by simp)
  | some pw =>
      exact decidable_of_iff (pw ≠ "" ∧ storedPw ≠ "" ∧ compareDigest pw storedPw = true) (by simp)

/-! ### Concrete inputs used by counterexamples and witnesses -/

/-- A fetched dataset with two readings at the same instant: both survive
cleaning, so duplicate timestamps occur in a cleaned series. -/
def dupRaw : List RawRow := [⟨some 0, some 10⟩, ⟨some 0, some 20⟩]

/-- A strictly increasing cleaned series: the third reading is more than five
minutes after the second. -/
def rowsW : List Row := [⟨0, 10⟩, ⟨60, 12⟩, ⟨400, 20⟩]

/-- A small fetched dataset with one invalid row, for the stats witness. -/
def statsRaw : List RawRow := [⟨some 5, some 3⟩, ⟨some 2, none⟩, ⟨some 9, some 7⟩]

/-- A small collection for the delete-route witnesses. -/
def collW : List Doc := [⟨0, 1⟩, ⟨100000, 2⟩, ⟨200000, 3⟩]

/-! ## Helper lemmas -/

theorem nycKey_eq (r : Row) : nycKey r = r.ts := rfl

theorem orderedInsertKey_perm {α : Type} (key : α → Int) (a : α) :
    ∀ l : List α, List.Perm (orderedInsertKey key a l) (a :: l)
  | [] => List.Perm.refl _
  | b :: l => by
      simp only [orderedInsertKey]
      by_cases h : key a ≤ key b
      · rw [if_pos h]
      · rw [if_neg h]
        exact ((orderedInsertKey_perm key a l).cons b).trans (List.Perm.swap a b l)

theorem sortByKey_perm {α : Type} (key : α → Int) :
    ∀ l : List α, List.Perm (sortByKey key l) l
  | [] => List.Perm.refl _
  | a :: l =>
      (orderedInsertKey_perm key a (sortByKey key l)).trans ((sortByKey_perm key l).cons a)

theorem mem_sortByKey {α : Type} (key : α → Int) (l : List α) (x : α) :
    x ∈ sortByKey key l ↔ x ∈ l :=
  (sortByKey_perm key l).mem_iff

theorem pairwise_orderedInsertKey {α : Type} (key : α → Int) (a : α) :
    ∀ l : List α, List.Pairwise (fun x y => key x ≤ key y) l →
      List.Pairwise (fun x y => key x ≤ key y) (orderedInsertKey key a l)
  | [], _ => by simp [orderedInsertKey]
  | b :: l, h => by
      rw [List.pairwise_cons] at h
      by_cases hab : key a ≤ key b
      · simp only [orderedInsertKey, if_pos hab]
        refine List.Pairwise.cons ?_ (List.Pairwise.cons h.1 h.2)
        intro c hc
        rcases List.mem_cons.mp hc with rfl | hc2
        · exact hab
        · exact le_trans hab (h.1 c hc2)
      · simp only [orderedInsertKey, if_neg hab]
        refine List.Pairwise.cons ?_ (pairwise_orderedInsertKey key a l h.2)
        intro c hc
        rcases List.mem_cons.mp ((orderedInsertKey_perm key a l).mem_iff.mp hc) with rfl | hc2
        · exact le_of_not_le hab
        · exact h.1 c hc2

theorem sortByKey_pairwise {α : Type} (key : α → Int) :
    ∀ l : List α, List.Pairwise (fun x y => key x ≤ key y) (sortByKey key l)
  | [] => List.Pairwise.nil
  | a :: l => pairwise_orderedInsertKey key a _ (sortByKey_pairwise key l)

theorem isMonotonicKey_eq_true {α : Type} (key : α → Int) :
    ∀ l : List α, List.Pairwise (fun x y => key x ≤ key y) l →
      isMonotonicKey key l = true
  | [], _ => rfl
  | [_], _ => rfl
  | a :: b :: rest, h => by
      rw [List.pairwise_cons] at h
      simp only [isMonotonicKey, Bool.and_eq_true, decide_eq_true_eq]
      exact ⟨h.1 b (by simp), isMonotonicKey_eq_true key (b :: rest) h.2⟩

/-! ## C6: convert_to_nyc_time -/

/-- C6: for every Python datetime input, `convert_to_nyc_time` returns the same
instant expressed in the America/New_York timezone (a naive input being read
as UTC, an aware one converted via UTC); for every non-datetime input it
returns `none`. -/
theorem convert_to_nyc_time_spec (v : PyValue) :
    (v = PyValue.nonDatetime → convert_to_nyc_time v = none) ∧
    (∀ d : PyDatetime, v = PyValue.dt d →
      convert_to_nyc_time v = some ⟨d.instant, some Tzone.nyc⟩) := by
  constructor
  · rintro rfl
    rfl
  · rintro d rfl
    cases h : d.tzinfo <;>
      simp [convert_to_nyc_time, astimezone, pytzUtcLocalize, h]

theorem convert_to_nyc_time_spec_witness :
    convert_to_nyc_time (PyValue.dt ⟨100, some (Tzone.fixedOffset (-300))⟩) =
      some ⟨100, some Tzone.nyc⟩ ∧
    convert_to_nyc_time PyValue.nonDatetime = none :=
  ⟨(convert_to_nyc_time_spec (PyValue.dt ⟨100, some (Tzone.fixedOffset (-300))⟩)).2
      ⟨100, some (Tzone.fixedOffset (-300))⟩ rfl,
   (convert_to_nyc_time_spec PyValue.nonDatetime).1 rfl⟩

/-! ## C3 and C10: y-axis range -/

theorem yPadded_eq (mn mx : ℚ) : yPadded mn mx = (⌊mn - 2⌋, ⌈mx + 2⌉) := by
  have hmax : max Y_AXIS_PADDING 1 = (2 : ℚ) := by
    rw [Y_AXIS_PADDING]; norm_num
  by_cases h : mn = mx <;> simp [yPadded, Y_AXIS_PADDING, h, hmax]

theorem yPadded_lt (mn mx : ℚ) (h : mn ≤ mx) :
    (yPadded mn mx).1 < (yPadded mn mx).2 := by
  rw [yPadded_eq]
  have h1 : ((⌊mn - 2⌋ : Int) : ℚ) ≤ mn - 2 := Int.floor_le _
  have h2 : (mx + 2 : ℚ) ≤ ((⌈mx + 2⌉ : Int) : ℚ) := Int.le_ceil _
  have : ((⌊mn - 2⌋ : Int) : ℚ) < ((⌈mx + 2⌉ : Int) : ℚ) := by linarith
  exact_mod_cast this

/-- C10: when `min_temp <= max_temp`, the padded bounds already satisfy
`y_min_calc < y_max_calc`, so the final clamping branch never rewrites them. -/
theorem yaxis_clamp_unreachable (mn mx : ℚ) (h : mn ≤ mx) :
    (yPadded mn mx).1 < (yPadded mn mx).2 ∧ yAxisRange mn mx = yPadded mn mx := by
  have hlt := yPadded_lt mn mx h
  refine ⟨hlt, ?_⟩
  rw [yAxisRange, yClamp, if_neg (by omega)]

theorem listMin_cons (x : ℚ) (xs : List ℚ) :
    listMin (x :: xs) =
      some (match listMin xs with | none => x | some m => min x m) := rfl

theorem listMax_cons (x : ℚ) (xs : List ℚ) :
    listMax (x :: xs) =
      some (match listMax xs with | none => x | some m => max x m) := rfl

theorem listMin_eq_none {l : List ℚ} : listMin l = none ↔ l = [] := by
  cases l with
  | nil => simp [listMin]
  | cons x xs => simp [listMin_cons]

theorem listMax_eq_none {l : List ℚ} : listMax l = none ↔ l = [] := by
  cases l with
  | nil => simp [listMax]
  | cons x xs => simp [listMax_cons]

theorem listMin_spec : ∀ {l : List ℚ} {m : ℚ}, listMin l = some m →
    m ∈ l ∧ ∀ x ∈ l, m ≤ x
  | x :: xs, m, h => by
      rw [listMin_cons] at h
      cases hxs : listMin xs with
      | none =>
          rw [hxs] at h
          simp only [Option.some.injEq] at h
          have hnil : xs = [] := listMin_eq_none.mp hxs
          subst hnil
          subst h
          simp
      | some m2 =>
          rw [hxs] at h
          simp only [Option.some.injEq] at h
          obtain ⟨hmem, hle⟩ := listMin_spec hxs
          subst h
          constructor
          · rcases le_total x m2 with hx | hx
            · rw [min_eq_left hx]; exact List.mem_cons_self x xs
            · rw [min_eq_right hx]; exact List.mem_cons_of_mem x hmem
          · intro z hz
            rcases List.mem_cons.mp hz with rfl | hz2
            · exact min_le_left _ _
            · exact le_trans (min_le_right _ _) (hle z hz2)

theorem listMax_spec : ∀ {l : List ℚ} {m : ℚ}, listMax l = some m →
    m ∈ l ∧ ∀ x ∈ l, x ≤ m
  | x :: xs, m, h => by
      rw [listMax_cons] at h
      cases hxs : listMax xs with
      | none =>
          rw [hxs] at h
          simp only [Option.some.injEq] at h
          have hnil : xs = [] := listMax_eq_none.mp hxs
          subst hnil
          subst h
          simp
      | some m2 =>
          rw [hxs] at h
          simp only [Option.some.injEq] at h
          obtain ⟨hmem, hle⟩ := listMax_spec hxs
          subst h
          constructor
          · rcases le_total x m2 with hx | hx
            · rw [max_eq_right hx]; exact List.mem_cons_of_mem x hmem
            · rw [max_eq_left hx]; exact List.mem_cons_self x xs
          · intro z hz
            rcases List.mem_cons.mp hz with rfl | hz2
            · exact le_max_left _ _
            · exact le_trans (hle z hz2) (le_max_right _ _)

theorem listMin_perm {l₁ l₂ : List ℚ} (h : List.Perm l₁ l₂) :
    listMin l₁ = listMin l₂ := by
  cases h1 : listMin l₁ with
  | none =>
      have h0 : l₁ = [] := listMin_eq_none.mp h1
      subst h0
      rw [h.symm.eq_nil, listMin_eq_none.mpr rfl]
  | some m =>
      cases h2 : listMin l₂ with
      | none =>
          have h0 : l₂ = [] := listMin_eq_none.mp h2
          subst h0
          rw [h.eq_nil] at h1
          simp [listMin] at h1
      | some m2 =>
          obtain ⟨hmem1, hle1⟩ := listMin_spec h1
          obtain ⟨hmem2, hle2⟩ := listMin_spec h2
          have ha : m ≤ m2 := hle1 m2 (h.mem_iff.mpr hmem2)
          have hb : m2 ≤ m := hle2 m (h.mem_iff.mp hmem1)
          rw [le_antisymm ha hb]

theorem listMax_perm {l₁ l₂ : List ℚ} (h : List.Perm l₁ l₂) :
    listMax l₁ = listMax l₂ := by
  cases h1 : listMax l₁ with
  | none =>
      have h0 : l₁ = [] := listMax_eq_none.mp h1
      subst h0
      rw [h.symm.eq_nil, listMax_eq_none.mpr rfl]
  | some m =>
      cases h2 : listMax l₂ with
      | none =>
          have h0 : l₂ = [] := listMax_eq_none.mp h2
          subst h0
          rw [h.eq_nil] at h1
          simp [listMax] at h1
      | some m2 =>
          obtain ⟨hmem1, hle1⟩ := listMax_spec h1
          obtain ⟨hmem2, hle2⟩ := listMax_spec h2
          have ha : m2 ≤ m := hle1 m2 (h.mem_iff.mpr hmem2)
          have hb : m ≤ m2 := hle2 m (h.mem_iff.mp hmem1)
          rw [le_antisymm hb ha]

/-- C3: for a non-empty valid dataset with extremes `mn` and `mx`, the y-axis
range is `[floor(mn - 2), ceil(mx + 2)]`, it strictly orders its bounds, it
contains `[mn, mx]`, and in the degenerate `mn = mx` case it still leaves at
least one unit of padding on each side. -/
theorem yaxis_range_spec (l : List Row) (mn mx : ℚ)
    (hmn : listMin (l.map Row.temp) = some mn)
    (hmx : listMax (l.map Row.temp) = some mx) :
    yAxisRange mn mx = (⌊mn - 2⌋, ⌈mx + 2⌉) ∧
    (yAxisRange mn mx).1 < (yAxisRange mn mx).2 ∧
    ((yAxisRange mn mx).1 : ℚ) ≤ mn ∧ mx ≤ ((yAxisRange mn mx).2 : ℚ) ∧
    (mn = mx → ((yAxisRange mn mx).1 : ℚ) ≤ mn - 1 ∧ mx + 1 ≤ ((yAxisRange mn mx).2 : ℚ)) := by
  obtain ⟨hmem1, hle1⟩ := listMin_spec hmn
  obtain ⟨hmem2, hle2⟩ := listMax_spec hmx
  have hmnmx : mn ≤ mx := hle1 mx hmem2
  have hrange := (yaxis_clamp_unreachable mn mx hmnmx).2
  have heq : yAxisRange mn mx = (⌊mn - 2⌋, ⌈mx + 2⌉) := by
    rw [hrange, yPadded_eq]
  have hfl : ((⌊mn - 2⌋ : Int) : ℚ) ≤ mn - 2 := Int.floor_le _
  have hce : (mx + 2 : ℚ) ≤ ((⌈mx + 2⌉ : Int) : ℚ) := Int.le_ceil _
  refine ⟨heq, ?_, ?_, ?_, ?_⟩
  · rw [hrange]
    exact yPadded_lt mn mx hmnmx
  · rw [heq]; dsimp only; linarith
  · rw [heq]; dsimp only; linarith
  · intro hd
    rw [heq]; dsimp only
    constructor <;> linarith

theorem yaxis_range_spec_witness :
    listMin ([(⟨0, 3⟩ : Row)].map Row.temp) = some 3 ∧
    listMax ([(⟨0, 3⟩ : Row)].map Row.temp) = some 3 ∧
    (yAxisRange 3 3 = (⌊(3 : ℚ) - 2⌋, ⌈(3 : ℚ) + 2⌉) ∧
      (yAxisRange 3 3).1 < (yAxisRange 3 3).2 ∧
      ((yAxisRange 3 3).1 : ℚ) ≤ 3 ∧ (3 : ℚ) ≤ ((yAxisRange 3 3).2 : ℚ) ∧
      ((3 : ℚ) = 3 → ((yAxisRange 3 3).1 : ℚ) ≤ 3 - 1 ∧ (3 : ℚ) + 1 ≤ ((yAxisRange 3 3).2 : ℚ))) :=
  ⟨rfl, rfl, yaxis_range_spec [⟨0, 3⟩] 3 3 rfl rfl⟩

theorem yaxis_clamp_unreachable_witness :
    (1 : ℚ) ≤ 2 ∧
      ((yPadded 1 2).1 < (yPadded 1 2).2 ∧ yAxisRange 1 2 = yPadded 1 2) :=
  ⟨by norm_num, yaxis_clamp_unreachable 1 2 (by norm_num)⟩

/-! ## C2: min/avg/max statistics -/

theorem cleanRows_map_temp : ∀ l : List RawRow, (cleanRows l).map Row.temp = validTemps l
  | [] => rfl
  | r :: l => by
      have ih := cleanRows_map_temp l
      simp only [cleanRows, dropNaTimestamp, dropNaTemp, toRows, validTemps] at ih ⊢
      obtain ⟨ts, temp⟩ := r
      cases ts <;> cases temp <;>
        simp_all [List.filter_cons, List.filterMap_cons]

theorem chartRows_temp_perm (l : List RawRow) :
    List.Perm ((chartRows l).map Row.temp) (validTemps l) := by
  have h1 : List.Perm (chartRows l) (cleanRows l) := sortByKey_perm _ _
  have h2 := h1.map Row.temp
  rw [cleanRows_map_temp] at h2
  exact h2

/-- C2: on a fetched dataset, the displayed statistics are the minimum, the
mean and the maximum of the temperatures of the valid rows (parseable
timestamp and numeric temperature), each formatted to two decimals; when no
valid row exists, no statistics are produced. -/
theorem stats_spec (raw : List RawRow) :
    (validTemps raw = [] → statsOf (chartRows raw) = none) ∧
    (validTemps raw ≠ [] →
      ∃ s : StatsData, statsOf (chartRows raw) = some s ∧
        (∃ mn, mn ∈ validTemps raw ∧ (∀ x ∈ validTemps raw, mn ≤ x) ∧ s.min_f = fmt2 mn) ∧
        s.avg_f = fmt2 ((validTemps raw).sum / ((validTemps raw).length : ℚ)) ∧
        (∃ mx, mx ∈ validTemps raw ∧ (∀ x ∈ validTemps raw, x ≤ mx) ∧ s.max_f = fmt2 mx)) := by
  have hperm := chartRows_temp_perm raw
  constructor
  · intro hnil
    rw [hnil] at hperm
    have h0 : (chartRows raw).map Row.temp = [] := hperm.eq_nil
    simp [statsOf, h0, listMin, listMax]
  · intro hne
    cases hmn : listMin (validTemps raw) with
    | none => exact absurd (listMin_eq_none.mp hmn) hne
    | some mn =>
      cases hmx : listMax (validTemps raw) with
      | none => exact absurd (listMax_eq_none.mp hmx) hne
      | some mx =>
        have hmn2 : listMin ((chartRows raw).map Row.temp) = some mn := by
          rw [listMin_perm hperm, hmn]
        have hmx2 : listMax ((chartRows raw).map Row.temp) = some mx := by
          rw [listMax_perm hperm, hmx]
        obtain ⟨hmnmem, hmnle⟩ := listMin_spec hmn
        obtain ⟨hmxmem, hmxle⟩ := listMax_spec hmx
        refine ⟨⟨fmt2 mn, fmt2 (mean ((chartRows raw).map Row.temp)), fmt2 mx⟩, ?_, ?_, ?_, ?_⟩
        · simp [statsOf, hmn2, hmx2]
        · exact ⟨mn, hmnmem, hmnle, rfl⟩
        · show fmt2 (mean ((chartRows raw).map Row.temp)) = _
          rw [mean, hperm.sum_eq, hperm.length_eq]
        · exact ⟨mx, hmxmem, hmxle, rfl⟩

theorem stats_spec_witness :
    validTemps statsRaw ≠ [] ∧
    (∃ s : StatsData, statsOf (chartRows statsRaw) = some s ∧
      (∃ mn, mn ∈ validTemps statsRaw ∧ (∀ x ∈ validTemps statsRaw, mn ≤ x) ∧
        s.min_f = fmt2 mn) ∧
      s.avg_f = fmt2 ((validTemps statsRaw).sum / ((validTemps statsRaw).length : ℚ)) ∧
      (∃ mx, mx ∈ validTemps statsRaw ∧ (∀ x ∈ validTemps statsRaw, x ≤ mx) ∧
        s.max_f = fmt2 mx)) :=
  ⟨by decide, (stats_spec statsRaw).2 (by decide)⟩

/-! ## C7: hours selection and window query -/

theorem mem_fetchWindow (docs : List RawRow) (startTime : Int) (d : RawRow) :
    d ∈ fetchWindow docs startTime ↔
      d ∈ docs ∧ ∃ t, d.tsRaw = some t ∧ startTime ≤ t := by
  rw [fetchWindow, mem_sortByKey, List.mem_filter]
  cases h : d.tsRaw <;> simp [h]

/-- C7: the hours selector accepts exactly the allowed values, falling back to
the 24-hour default with a warning on any other integer or unparseable value,
and the window query returns exactly the documents whose timestamp is at
least `now` minus the selected number of hours. -/
theorem hours_window_spec (p : Option String) (docs : List RawRow) (now : Int) :
    (∀ s n, p = some s → pyInt s = some n → n ∈ ALLOWED_HOURS →
      selectHours p = (n, false)) ∧
    (∀ s n, p = some s → pyInt s = some n → n ∉ ALLOWED_HOURS →
      selectHours p = (DEFAULT_HOURS, true)) ∧
    (∀ s, p = some s → pyInt s = none → selectHours p = (DEFAULT_HOURS, true)) ∧
    (∀ d, d ∈ fetchWindow docs (startTimeUtc now (selectHours p).1) ↔
      d ∈ docs ∧ ∃ t, d.tsRaw = some t ∧ startTimeUtc now (selectHours p).1 ≤ t) := by
  refine ⟨?_, ?_, ?_, fun d => mem_fetchWindow docs _ d⟩
  · rintro s n rfl hn hall
    simp [selectHours, hn, hall]
  · rintro s n rfl hn hall
    simp [selectHours, hn, hall]
  · rintro s rfl hn
    simp [selectHours, hn]

theorem hours_window_spec_witness :
    pyInt "48" = some 48 ∧ (48 : Int) ∈ ALLOWED_HOURS ∧
    selectHours (some "48") = (48, false) :=
  ⟨by decide, by decide,
    (hours_window_spec (some "48") [] 0).1 "48" 48 rfl (by decide) (by decide)⟩

/-! ## C4, C5, C9: the delete route -/

theorem keep_filter_eq (c : Int) (coll : List Doc) :
    (coll.filter fun x => !decide (x.ts < c)) = coll.filter fun x => decide (c ≤ x.ts) :=
  List.filter_congr fun x _ => by
    rw [← decide_not]
    exact decide_eq_decide.mpr not_lt

theorem delete_result_pos (storedPw : String) (now : Int) (pw ds : String) (d : Int)
    (coll : List Doc) (hpw : pw ≠ "") (hst : storedPw ≠ "")
    (hcmp : compareDigest pw storedPw = true) (hd : pyInt ds = some d) (hpos : 0 < d) :
    (delete_old_data storedPw now (some pw) (some ds) coll).coll =
      coll.filter fun x => decide (cutoffDate now d ≤ x.ts) := by
  have hor : ¬ (pw = "" ∨ storedPw = "") := by tauto
  have hn1 : ¬ d < 0 := by omega
  have hn2 : ¬ d = 0 := by omega
  simp [delete_old_data, hor, hcmp, hd, hn1, hn2, keep_filter_eq]

/-- C4: with a passing password check, a zero `days_old` deletes everything,
a positive one deletes exactly the documents strictly older than the cutoff,
a negative one deletes nothing and flashes a warning, and an unparseable one
deletes nothing. -/
theorem delete_days_spec (storedPw : String) (now : Int) (pw ds : String)
    (coll : List Doc) (hpw : pw ≠ "") (hst : storedPw ≠ "")
    (hcmp : compareDigest pw storedPw = true) :
    (pyInt ds = some 0 → (delete_old_data storedPw now (some pw) (some ds) coll).coll = []) ∧
    (∀ d : Int, pyInt ds = some d → 0 < d →
      (delete_old_data storedPw now (some pw) (some ds) coll).coll =
        coll.filter fun x => decide (cutoffDate now d ≤ x.ts)) ∧
    (∀ d : Int, pyInt ds = some d → d < 0 →
      (delete_old_data storedPw now (some pw) (some ds) coll).coll = coll ∧
      flashCat (delete_old_data storedPw now (some pw) (some ds) coll).flash = FlashCat.warning) ∧
    (pyInt ds = none → (delete_old_data storedPw now (some pw) (some ds) coll).coll = coll) := by
  have hor : ¬ (pw = "" ∨ storedPw = "") := by tauto
  refine ⟨?_, ?_, ?_, ?_⟩
  · intro h0
    simp [delete_old_data, hor, hcmp, h0]
  · intro d hd hpos
    exact delete_result_pos storedPw now pw ds d coll hpw hst hcmp hd hpos
  · intro d hd hneg
    constructor <;> simp [delete_old_data, hor, hcmp, hd, hneg, flashCat]
  · intro hd
    simp [delete_old_data, hor, hcmp, hd]

theorem delete_days_spec_witness :
    ("s3cret" : String) ≠ "" ∧ compareDigest "s3cret" "s3cret" = true ∧
    pyInt "1" = some 1 ∧ (0 : Int) < 1 ∧
    (delete_old_data "s3cret" 1000000 (some "s3cret") (some "1") collW).coll =
      collW.filter fun x => decide (cutoffDate 1000000 1 ≤ x.ts) :=
  ⟨by decide, by decide, by decide, by decide,
    (delete_days_spec "s3cret" 1000000 "s3cret" "1" collW (by decide) (by decide)
      (by decide)).2.1 1 (by decide) (by decide)⟩

/-- C5: the delete route removes documents only when the submitted password
passes the digest comparison against the stored one; on a missing or
mismatching password the collection is unchanged and the route redirects with
a danger flash. -/
theorem delete_password_gate (storedPw : String) (now : Int) (password : Option String)
    (daysOld : Option String) (coll : List Doc) :
    ((delete_old_data storedPw now password daysOld coll).coll ≠ coll →
      passwordAccepted storedPw password) ∧
    (¬ passwordAccepted storedPw password →
      (delete_old_data storedPw now password daysOld coll).coll = coll ∧
      flashCat (delete_old_data storedPw now password daysOld coll).flash = FlashCat.danger ∧
      (delete_old_data storedPw now password daysOld coll).redirected = true) := by
  cases password with
  | none => exact ⟨fun h => absurd rfl h, fun _ => ⟨rfl, rfl, rfl⟩⟩
  | some pw =>
      by_cases h1 : pw = "" ∨ storedPw = ""
      · constructor
        · intro h
          exfalso
          apply h
          simp [delete_old_data, h1]
        · intro _
          simp [delete_old_data, h1, flashCat]
      · by_cases h2 : compareDigest pw storedPw = true
        · have hacc : passwordAccepted storedPw (some pw) :=
            ⟨pw, rfl, fun he => h1 (Or.inl he), fun he => h1 (Or.inr he), h2⟩
          exact ⟨fun _ => hacc, fun hn => absurd hacc hn⟩
        · constructor
          · intro h
            exfalso
            apply h
            simp [delete_old_data, h1, h2]
          · intro _
            simp [delete_old_data, h1, h2, flashCat]

theorem delete_password_gate_witness :
    ¬ passwordAccepted "right" (some "wrong") ∧
    ((delete_old_data "right" 0 (some "wrong") (some "5") collW).coll = collW ∧
     flashCat (delete_old_data "right" 0 (some "wrong") (some "5") collW).flash =
       FlashCat.danger ∧
     (delete_old_data "right" 0 (some "wrong") (some "5") collW).redirected = true) :=
  ⟨by decide, (delete_password_gate "right" 0 (some "wrong") (some "5") collW).2 (by decide)⟩

/-- C9: with a passing password and positive `days_old`, every document at or
after the cutoff keeps its multiplicity in the collection, and no document
outside the original collection appears. -/
theorem delete_frame_spec (storedPw : String) (now : Int) (pw ds : String) (d : Int)
    (coll : List Doc) (hpw : pw ≠ "") (hst : storedPw ≠ "")
    (hcmp : compareDigest pw storedPw = true) (hd : pyInt ds = some d) (hpos : 0 < d) :
    (∀ x : Doc, cutoffDate now d ≤ x.ts →
      (delete_old_data storedPw now (some pw) (some ds) coll).coll.count x = coll.count x) ∧
    ∀ x : Doc, x ∈ (delete_old_data storedPw now (some pw) (some ds) coll).coll → x ∈ coll := by
  have heq := delete_result_pos storedPw now pw ds d coll hpw hst hcmp hd hpos
  rw [heq]
  constructor
  · intro x hx
    exact List.count_filter (by simpa using hx)
  · intro x hx
    exact List.mem_of_mem_filter hx

theorem delete_frame_spec_witness :
    compareDigest "s3cret" "s3cret" = true ∧ pyInt "2" = some 2 ∧ (0 : Int) < 2 ∧
    cutoffDate 250000 2 ≤ (⟨100000, 2⟩ : Doc).ts ∧
    (delete_old_data "s3cret" 250000 (some "s3cret") (some "2") collW).coll.count ⟨100000, 2⟩ =
      collW.count ⟨100000, 2⟩ :=
  ⟨by decide, by decide, by decide, by decide,
    (delete_frame_spec "s3cret" 250000 "s3cret" "2" 2 collW (by decide) (by decide)
      (by decide) (by decide) (by decide)).1 ⟨100000, 2⟩ (by decide)⟩

/-! ## C8: orderings along the pipeline -/

/-- C8: the fetched rows come back sorted by UTC timestamp, sorting by the
NYC-converted times is the same operation as sorting by the UTC timestamps,
the charted rows are in ascending time order, and the monotonicity re-sort
before the rolling computation is a no-op, so the rolling index is
monotonically increasing. -/
theorem sorted_pipeline_spec (docs : List RawRow) (startTime : Int) (l : List Row)
    (raw : List RawRow) :
    List.Pairwise (fun a b => tsRawD a ≤ tsRawD b) (fetchWindow docs startTime) ∧
    sortNyc l = sortTs l ∧
    List.Pairwise (fun a b : Row => a.ts ≤ b.ts) (chartRows raw) ∧
    dfForRolling (chartRows raw) = chartRows raw := by
  have hkey : nycKey = fun r : Row => r.ts := funext fun r => rfl
  refine ⟨sortByKey_pairwise _ _, ?_, ?_, ?_⟩
  · rw [sortNyc, sortTs, hkey]
  · have h := sortByKey_pairwise nycKey (cleanRows raw)
    rw [hkey] at h
    simpa [chartRows, sortNyc, hkey] using h
  · have hmono := isMonotonicKey_eq_true nycKey _ (sortByKey_pairwise nycKey (cleanRows raw))
    simp only [dfForRolling, chartRows, sortNyc]
    rw [if_pos hmono]

/-! ## C1: the rolling 5-minute average and its peak -/

theorem maxWithIdx_le_acc : ∀ (s : List (Int × ℚ)) (acc : ℚ × Int),
    acc.1 ≤ (maxWithIdx s acc).1
  | [], _ => le_refl _
  | (t, v) :: rest, acc => by
      simp only [maxWithIdx]
      by_cases h : acc.1 < v
      · rw [if_pos h]
        exact le_trans (le_of_lt h) (maxWithIdx_le_acc rest (v, t))
      · rw [if_neg h]
        exact maxWithIdx_le_acc rest acc

theorem maxWithIdx_le_mem : ∀ (s : List (Int × ℚ)) (acc : ℚ × Int) (p : Int × ℚ),
    p ∈ s → p.2 ≤ (maxWithIdx s acc).1
  | (t, v) :: rest, acc, p, hp => by
      simp only [maxWithIdx]
      rcases List.mem_cons.mp hp with he | hp2
      · subst he
        have hbase : v ≤ (if acc.1 < v then (v, t) else acc).1 := by
          by_cases h : acc.1 < v
          · rw [if_pos h]
          · rw [if_neg h]
            exact le_of_not_lt h
        exact le_trans hbase (maxWithIdx_le_acc rest _)
      · exact maxWithIdx_le_mem rest _ p hp2

theorem maxWithIdx_mem : ∀ (s : List (Int × ℚ)) (acc : ℚ × Int),
    maxWithIdx s acc = acc ∨ ∃ p, p ∈ s ∧ maxWithIdx s acc = (p.2, p.1)
  | [], _ => Or.inl rfl
  | (t, v) :: rest, acc => by
      simp only [maxWithIdx]
      by_cases hc : acc.1 < v
      · rw [if_pos hc]
        rcases maxWithIdx_mem rest (v, t) with h | ⟨p, hp, he⟩
        · exact Or.inr ⟨(t, v), List.mem_cons_self _ _, h⟩
        · exact Or.inr ⟨p, List.mem_cons_of_mem _ hp, he⟩
      · rw [if_neg hc]
        rcases maxWithIdx_mem rest acc with h | ⟨p, hp, he⟩
        · exact Or.inl h
        · exact Or.inr ⟨p, List.mem_cons_of_mem _ hp, he⟩

theorem rollWindow_eq_specWindow (l : List Row) (i : Nat) (hi : i < l.length)
    (hsort : List.Pairwise (fun a b : Row => a.ts < b.ts) l) :
    specWindow l i = rollWindow l i := by
  have hkeyi : keyAt l i = l[i].ts := by
    rw [keyAt, List.getD_eq_getElem l default hi, nycKey_eq]
  have hpg := List.pairwise_iff_getElem.mp hsort
  rw [specWindow, rollWindow]
  set c := keyAt l i with hc
  conv_lhs => rw [← List.take_append_drop (i + 1) l]
  rw [List.filter_append]
  have hdrop : (l.drop (i + 1)).filter (fun r =>
      decide (c - ROLLING_AVG_WINDOW_SECONDS < nycKey r) &&
        decide (nycKey r ≤ c)) = [] := by
    apply List.filter_eq_nil_iff.mpr
    intro r hr
    rw [List.mem_drop_iff_getElem] at hr
    obtain ⟨j, hj, rfl⟩ := hr
    have hlt : l[i].ts < l[i + 1 + j].ts := hpg i (i + 1 + j) hi (by omega) (by omega)
    simp only [Bool.and_eq_true, decide_eq_true_eq, not_and]
    intro _
    rw [nycKey_eq, hkeyi, not_le]
    exact hlt
  rw [hdrop, List.append_nil]
  apply List.filter_congr
  intro r hr
  rw [List.mem_take_iff_getElem] at hr
  obtain ⟨j, hj, rfl⟩ := hr
  have hjl : j < l.length := by omega
  have hle : l[j].ts ≤ l[i].ts := by
    rcases Nat.lt_or_ge j i with h | h
    · exact le_of_lt (hpg j i hjl hi h)
    · have hji : j = i := by omega
      subst hji
      exact le_refl _
  have hkr : nycKey l[j] ≤ c := by
    rw [nycKey_eq, hkeyi]
    exact hle
  simp [hkr]

/-- C1 (amended): for a non-empty cleaned series with strictly increasing
timestamps, the rolling value at each reading is the mean of all temperatures
in the 5-minute window ending at that reading, and the peak of the rolling
series is its maximum, reported with a timestamp at which it is attained. -/
theorem rolling_avg_spec (l : List Row) (hne : l ≠ [])
    (hsort : List.Pairwise (fun a b : Row => a.ts < b.ts) l) :
    (∀ i, i < l.length → rollAt l i = specWindowMean l i) ∧
    ∃ m t, highestRolling l = some (m, t) ∧
      (∀ i, i < l.length → rollAt l i ≤ m) ∧
      ∃ i, i < l.length ∧ rollAt l i = m ∧ keyAt l i = t := by
  constructor
  · intro i hi
    rw [rollAt, specWindowMean, rollWindow_eq_specWindow l i hi hsort]
  · cases hser : rollingSeries l with
    | nil =>
        exfalso
        have h0 : l.length = 0 := by
          have := congrArg List.length hser
          simpa [rollingSeries] using this
        exact hne (List.length_eq_zero.mp h0)
    | cons hd tl =>
        obtain ⟨t0, v0⟩ := hd
        refine ⟨(maxWithIdx tl (v0, t0)).1, (maxWithIdx tl (v0, t0)).2, ?_, ?_, ?_⟩
        · simp [highestRolling, hser]
        · intro i hi
          have hmem : (keyAt l i, rollAt l i) ∈ rollingSeries l :=
            List.mem_map.mpr ⟨i, List.mem_range.mpr hi, rfl⟩
          rw [hser] at hmem
          rcases List.mem_cons.mp hmem with he | hmem2
          · have hv : rollAt l i = v0 := congrArg Prod.snd he
            rw [hv]
            exact maxWithIdx_le_acc tl (v0, t0)
          · exact maxWithIdx_le_mem tl (v0, t0) _ hmem2
        · rcases maxWithIdx_mem tl (v0, t0) with h | ⟨p, hp, he⟩
          · have hdmem : ((t0, v0) : Int × ℚ) ∈ rollingSeries l := by
              rw [hser]
              exact List.mem_cons_self _ _
            obtain ⟨i, hir, hieq⟩ := List.mem_map.mp hdmem
            refine ⟨i, List.mem_range.mp hir, ?_, ?_⟩
            · rw [h]
              exact congrArg Prod.snd hieq
            · rw [h]
              exact congrArg Prod.fst hieq
          · have hpmem : p ∈ rollingSeries l := by
              rw [hser]
              exact List.mem_cons_of_mem _ hp
            obtain ⟨i, hir, hieq⟩ := List.mem_map.mp hpmem
            refine ⟨i, List.mem_range.mp hir, ?_, ?_⟩
            · rw [he]
              show rollAt l i = p.2
              rw [← hieq]
            · rw [he]
              show keyAt l i = p.1
              rw [← hieq]

theorem rolling_avg_spec_witness :
    rowsW ≠ [] ∧ List.Pairwise (fun a b : Row => a.ts < b.ts) rowsW ∧
    ((∀ i, i < rowsW.length → rollAt rowsW i = specWindowMean rowsW i) ∧
      ∃ m t, highestRolling rowsW = some (m, t) ∧
        (∀ i, i < rowsW.length → rollAt rowsW i ≤ m) ∧
        ∃ i, i < rowsW.length ∧ rollAt rowsW i = m ∧ keyAt rowsW i = t) :=
  ⟨by decide, by decide, rolling_avg_spec rowsW (by decide) (by decide)⟩

/-- C1 as stated fails on a cleaned series with two readings at the same
instant: at the first reading the code averages only the readings up to the
current position (here, the single value 10), while the mean of all values
in the window ending there is 15. -/
theorem rolling_avg_claim_counterexample :
    ¬ (rollAt (chartRows dupRaw) 0 = specWindowMean (chartRows dupRaw) 0) := by
  have h1 : chartRows dupRaw = [⟨0, 10⟩, ⟨0, 20⟩] := by decide
  rw [h1]
  have h2 : rollAt [(⟨0, 10⟩ : Row), ⟨0, 20⟩] 0 = 10 := by
    norm_num [rollAt, rollWindow, keyAt, nycKey, nycOf, convert_to_nyc_time, mean,
      ROLLING_AVG_WINDOW_SECONDS, astimezone, pytzUtcLocalize, List.take, List.filter]
  have h3 : specWindowMean [(⟨0, 10⟩ : Row), ⟨0, 20⟩] 0 = 15 := by
    norm_num [specWindowMean, specWindow, keyAt, nycKey, nycOf, convert_to_nyc_time, mean,
      ROLLING_AVG_WINDOW_SECONDS, astimezone, pytzUtcLocalize, List.filter]
  rw [h2, h3]
  norm_num

end WeatherStation
